import Mathlib

/-!
Verification of the conversation session manager implemented in
`src/server.js` of the Ai-integration repository.

The embedding below translates the JavaScript source into Lean:

* the JS `Map` used as the in-memory conversation store becomes an
  insertion-ordered association list;
* the HuggingFace completion gateway is abstracted as a function from a
  model id and a message list to `Option String`, where `none` models a
  thrown provider error (which lands in the handler's `catch` block);
* `randomUUID()` and `new Date().toISOString()` are abstracted as the
  parameters `freshId` and `now`;
* JavaScript truthiness tests on optional strings (`if (!message)`,
  `if (systemPrompt)`, `conversationId || randomUUID()`) become
  `strTruthy` on `Option String`, for which `none` and `some ""` are
  the falsy values.
-/

namespace ChatServer

/-- A chat message: `role` is one of "system", "user", "assistant". -/
structure Message where
  role : String
  content : String
deriving DecidableEq, Repr

/-- A stored conversation record (the object literal built in
`getConversation`, src/server.js lines 46-51). -/
structure Convo where
  messages : List Message
  systemPrompt : String
  model : String
  createdAt : String
  updatedAt : Option String
deriving DecidableEq, Repr

/-- The in-memory conversation store: the JS `Map` of src/server.js line 18,
modelled as an insertion-ordered association list. -/
abbrev Store := List (String × Convo)

/-- The `MODELS` alias registry (src/server.js lines 21-27). -/
def MODELS : List (String × String) :=
  [("llama3", "meta-llama/Llama-3.1-8B-Instruct"),
   ("mistral", "mistralai/Mistral-7B-Instruct-v0.3"),
   ("phi3", "microsoft/Phi-3-mini-4k-instruct"),
   ("qwen", "Qwen/Qwen2.5-7B-Instruct"),
   ("gemma", "google/gemma-2-9b-it")]

/-- `DEFAULT_MODEL` (src/server.js line 29). -/
def DEFAULT_MODEL : String := "llama3"

/-- JS truthiness of an optional string value: `undefined` and `""` are falsy. -/
def strTruthy : Option String → Bool
  | none => false
  | some s => s != ""

/-- `resolveModel` (src/server.js lines 32-38). -/
def resolveModel (model : Option String) : String :=
  if !strTruthy model then (MODELS.lookup DEFAULT_MODEL).getD ""
  else
    let m := model.getD ""
    match MODELS.lookup m with
    | some full => full
    | none => m

/-- `conversations.get(id)`. -/
def storeGet (s : Store) (id : String) : Option Convo := s.lookup id

/-- `conversations.has(id)`. -/
def storeHas (s : Store) (id : String) : Bool := (s.lookup id).isSome

/-- `conversations.set(id, c)`: a JS `Map` replaces the value in place when
the key is present and appends a new entry otherwise. -/
def storeSet (s : Store) (id : String) (c : Convo) : Store :=
  if storeHas s id then s.map (fun p => if p.1 = id then (id, c) else p)
  else s ++ [(id, c)]

/-- `conversations.delete(id)`. -/
def storeDel (s : Store) (id : String) : Store :=
  s.filter (fun p => p.1 != id)

/-- The fresh record built by `getConversation` (src/server.js lines 46-51). -/
def newConvo (now : String) : Convo :=
  { messages := []
    systemPrompt := "You are a helpful, friendly AI assistant."
    model := (MODELS.lookup DEFAULT_MODEL).getD ""
    createdAt := now
    updatedAt := none }

/-- `getConversation` (src/server.js lines 41-54): if `conversationId` is
truthy and a live session exists under it, return it with the store
unchanged; otherwise register a fresh record under the supplied id (when
truthy) or under a freshly generated one. -/
def getConversation (conversationId : Option String) (freshId now : String)
    (s : Store) : (String × Convo) × Store :=
  match (if strTruthy conversationId then storeGet s (conversationId.getD "") else none) with
  | some c => ((conversationId.getD "", c), s)
  | none =>
    let id := if strTruthy conversationId then conversationId.getD "" else freshId
    ((id, newConvo now), storeSet s id (newConvo now))

/-- The transcript truncation of src/server.js lines 197-199:
`messages.slice(-20)` keeps the most recent 20 entries, applied only when
the transcript holds more than 20. -/
def truncate20 (l : List Message) : List Message :=
  if l.length > 20 then l.drop (l.length - 20) else l

/-- Outcome of `POST /conversation` as seen by the caller. -/
inductive TurnResp where
  | badRequest
  | failure
  | success (conversationId reply model : String) (messageCount : Nat)
deriving DecidableEq, Repr

/-- Result of one `POST /conversation`: the HTTP-level response, the updated
store, and the single gateway invocation (model id, outbound messages) when
one was made. -/
structure TurnOut where
  resp : TurnResp
  store : Store
  call : Option (String × List Message)
deriving DecidableEq, Repr

/-- The `POST /conversation` handler (src/server.js lines 164-228). Mirrors
the source order: validate the message, get or create the session, apply the
truthy overrides, push the user message, assemble the outbound list with the
system prompt in front, truncate the stored transcript, call the gateway,
and on success append the assistant reply and set `updatedAt`. A gateway
result of `none` is the thrown error handled by the `catch` block: the
mutations performed so far remain committed and a generic failure is
returned. -/
def postConversation (message conversationId model systemPrompt : Option String)
    (gateway : String → List Message → Option String)
    (freshId now : String) (s : Store) : TurnOut :=
  if !strTruthy message then ⟨.badRequest, s, none⟩
  else
    let msg := message.getD ""
    let idc := getConversation conversationId freshId now s
    let id := idc.1.1
    let s1 := idc.2
    match storeGet s1 id with
    | none => ⟨.failure, s1, none⟩
    | some stored0 =>
      let stored1 := if strTruthy systemPrompt then
        { stored0 with systemPrompt := systemPrompt.getD "" } else stored0
      let stored2 := if strTruthy model then
        { stored1 with model := resolveModel model } else stored1
      let stored3 := { stored2 with messages := stored2.messages ++ [Message.mk "user" msg] }
      let outbound : List Message := Message.mk "system" stored3.systemPrompt :: stored3.messages
      let stored4 := { stored3 with messages := truncate20 stored3.messages }
      match gateway stored4.model outbound with
      | none => ⟨.failure, storeSet s1 id stored4, some (stored4.model, outbound)⟩
      | some reply =>
        let stored5 := { stored4 with
          messages := stored4.messages ++ [Message.mk "assistant" reply]
          updatedAt := some now }
        ⟨.success id reply stored5.model stored5.messages.length,
         storeSet s1 id stored5, some (stored4.model, outbound)⟩

/-- Outcome of `GET /conversation/:id`. -/
inductive GetResp where
  | notFound
  | ok (conversationId systemPrompt model : String) (messageCount : Nat)
      (messages : List Message) (createdAt : String) (updatedAt : Option String)
deriving DecidableEq, Repr

/-- The `GET /conversation/:id` handler (src/server.js lines 231-245).
Read-only: it never touches the store. -/
def getConversationById (id : String) (s : Store) : GetResp :=
  match storeGet s id with
  | none => .notFound
  | some c => .ok id c.systemPrompt c.model c.messages.length c.messages c.createdAt c.updatedAt

/-- Outcome of `DELETE /conversation/:id`. -/
inductive DelResp where
  | notFound
  | success
deriving DecidableEq, Repr

/-- The `DELETE /conversation/:id` handler (src/server.js lines 248-254). -/
def deleteConversation (id : String) (s : Store) : DelResp × Store :=
  if !storeHas s id then (.notFound, s)
  else (.success, storeDel s id)

/-- `n` sequential successful turns against the session `id`, starting from
the given store: turn `k` sends user message `u k` and the gateway replies
`a k`. -/
def runTurns (id : String) (u a : Nat → String) : Nat → Store → Store
  | 0, s => s
  | n + 1, s =>
    (postConversation (some (u (n + 1))) (some id) none none
      (fun _ _ => some (a (n + 1))) "fresh" "t" (runTurns id u a n s)).store

/-- The transcript that the `n` turns of `runTurns` generate before any
truncation: user message then assistant reply, per turn. -/
def fullTranscript (u a : Nat → String) (n : Nat) : List Message :=
  (List.range n).flatMap (fun i => [Message.mk "user" (u (i + 1)), Message.mk "assistant" (a (i + 1))])

/-! ### Helper lemmas about the store operations -/

theorem strTruthy_some {s : String} (h : s ≠ "") : strTruthy (some s) = true := by
  simp [strTruthy, h]

theorem lookup_mapSet (s : Store) (id : String) (c : Convo)
    (h : (s.lookup id).isSome) :
    (s.map (fun p => if p.1 = id then (id, c) else p)).lookup id = some c := by
  induction s with
  | nil => simp at h
  | cons p t ih =>
    obtain ⟨k, v⟩ := p
    by_cases hp : k = id
    · subst hp
      have hhead : (fun p : String × Convo => if p.1 = k then (k, c) else p) (k, v) = (k, c) := by
        simp
      simp only [List.map_cons, hhead]
      simp [List.lookup]
    · have hhead : (fun p : String × Convo => if p.1 = id then (id, c) else p) (k, v) = (k, v) := by
        simp [hp]
      have hb' : (id == k) = false := beq_eq_false_iff_ne.mpr (Ne.symm hp)
      have h' : (t.lookup id).isSome := by simpa [List.lookup, hb'] using h
      simp only [List.map_cons, hhead]
      simpa [List.lookup, hb'] using ih h'

theorem lookup_appendSet (s : Store) (id : String) (c : Convo)
    (h : s.lookup id = none) :
    (s ++ [(id, c)]).lookup id = some c := by
  induction s with
  | nil => simp [List.lookup]
  | cons p t ih =>
    obtain ⟨k, v⟩ := p
    by_cases hp : id = k
    · subst hp
      simp [List.lookup] at h
    · have hb : (id == k) = false := beq_eq_false_iff_ne.mpr hp
      have h' : t.lookup id = none := by simpa [List.lookup, hb] using h
      simpa [List.lookup, hb] using ih h'

theorem storeGet_storeSet_self (s : Store) (id : String) (c : Convo) :
    storeGet (storeSet s id c) id = some c := by
  unfold storeSet storeGet
  by_cases h : storeHas s id
  · rw [if_pos h]
    exact lookup_mapSet s id c h
  · rw [if_neg h]
    have hn : s.lookup id = none := by
      unfold storeHas at h
      cases hx : s.lookup id with
      | none => rfl
      | some v => rw [hx] at h; simp at h
    exact lookup_appendSet s id c hn

theorem storeGet_storeDel_self (s : Store) (id : String) :
    storeGet (storeDel s id) id = none := by
  unfold storeDel storeGet
  induction s with
  | nil => rfl
  | cons p t ih =>
    obtain ⟨k, v⟩ := p
    by_cases hp : k = id
    · have hb : (k != id) = false := by simp [hp]
      simpa [List.filter, hb] using ih
    · have hb : (k != id) = true := by simp [hp]
      have hb' : (id == k) = false := beq_eq_false_iff_ne.mpr (Ne.symm hp)
      simpa [List.filter, hb, List.lookup, hb'] using ih

theorem getConversation_lookup (cid : Option String) (f now : String) (s : Store) :
    storeGet (getConversation cid f now s).2 (getConversation cid f now s).1.1 =
      some (getConversation cid f now s).1.2 := by
  unfold getConversation
  cases hx : (if strTruthy cid then storeGet s (cid.getD "") else none) with
  | some c =>
    simp only [hx]
    split at hx
    · exact hx
    · cases hx
  | none =>
    simp only [hx]
    exact storeGet_storeSet_self ..

theorem getConversation_existing (id f now : String) (s : Store) (c : Convo)
    (hid : id ≠ "") (hc : storeGet s id = some c) :
    getConversation (some id) f now s = ((id, c), s) := by
  unfold getConversation
  simp [strTruthy_some hid, hc]

/-! ### An equational restatement of the turn handler, for proofs -/

/-- The body of `postConversation` after the session has been fetched:
equal to the handler by `postConversation_eq`, stated over the fetched
record so that per-claim proofs can reason about one session directly. -/
def turnCore (msg id : String) (c : Convo) (s1 : Store) (mo sp : Option String)
    (g : String → List Message → Option String) (now : String) : TurnOut :=
  let c1 := if strTruthy sp then { c with systemPrompt := sp.getD "" } else c
  let c2 := if strTruthy mo then { c1 with model := resolveModel mo } else c1
  let pushed := c2.messages ++ [Message.mk "user" msg]
  let outbound := Message.mk "system" c2.systemPrompt :: pushed
  match g c2.model outbound with
  | none =>
    ⟨.failure, storeSet s1 id { c2 with messages := truncate20 pushed },
     some (c2.model, outbound)⟩
  | some reply =>
    let final := truncate20 pushed ++ [Message.mk "assistant" reply]
    ⟨.success id reply c2.model final.length,
     storeSet s1 id { c2 with messages := final, updatedAt := some now },
     some (c2.model, outbound)⟩

theorem postConversation_eq (msg f now : String) (cid mo sp : Option String)
    (g : String → List Message → Option String) (s : Store) (hmsg : msg ≠ "") :
    postConversation (some msg) cid mo sp g f now s =
      turnCore msg (getConversation cid f now s).1.1 (getConversation cid f now s).1.2
        (getConversation cid f now s).2 mo sp g now := by
  unfold postConversation
  rw [strTruthy_some hmsg]
  simp only [Bool.not_true, Bool.false_eq_true, if_false, Option.getD_some]
  rw [getConversation_lookup]
  rfl

theorem postConversation_existing (msg id f now : String) (mo sp : Option String)
    (g : String → List Message → Option String) (s : Store) (c : Convo)
    (hmsg : msg ≠ "") (hid : id ≠ "") (hc : storeGet s id = some c) :
    postConversation (some msg) (some id) mo sp g f now s =
      turnCore msg id c s mo sp g now := by
  rw [postConversation_eq msg f now (some id) mo sp g s hmsg,
    getConversation_existing id f now s c hid hc]

theorem getConversation_create (cid f now : String) (s : Store)
    (hid : cid ≠ "") (hc : storeGet s cid = none) :
    getConversation (some cid) f now s = ((cid, newConvo now), storeSet s cid (newConvo now)) := by
  unfold getConversation
  simp [strTruthy_some hid, hc]

/-! ### Truncation arithmetic -/

theorem truncate20_length (l : List Message) : (truncate20 l).length = min l.length 20 := by
  unfold truncate20
  split <;> rename_i h <;> simp [List.length_drop] <;> omega

theorem truncate20_suffix (l : List Message) : truncate20 l <:+ l := by
  unfold truncate20
  split
  · exact List.drop_suffix _ _
  · exact List.suffix_refl l

theorem truncate20_append_last (l : List Message) (x : Message) :
    truncate20 (l ++ [x]) = l.drop (l.length + 1 - 20) ++ [x] := by
  unfold truncate20
  by_cases h : (l ++ [x]).length > 20
  · rw [if_pos h]
    have hle : (l ++ [x]).length - 20 ≤ l.length := by
      simp only [List.length_append, List.length_cons, List.length_nil]
      omega
    rw [List.drop_append_of_le_length hle]
    simp only [List.length_append, List.length_cons, List.length_nil]
  · rw [if_neg h]
    have h20 : l.length + 1 ≤ 20 := by
      simp only [List.length_append, List.length_cons, List.length_nil, gt_iff_lt,
        not_lt] at h
      omega
    have h0 : l.length + 1 - 20 = 0 := by omega
    simp [h0]

theorem truncate20_drop_step (l : List Message) (x y : Message) :
    truncate20 (l.drop (l.length - 21) ++ [x]) ++ [y] =
      (l ++ [x, y]).drop (l.length + 2 - 21) := by
  rw [truncate20_append_last, List.length_drop, List.append_assoc, List.drop_drop]
  have h1 : l.length + 2 - 21 ≤ l.length := by omega
  have h2 : l.length - 21 + (l.length - (l.length - 21) + 1 - 20) = l.length + 2 - 21 := by
    omega
  rw [List.drop_append_of_le_length h1, h2]
  rfl

/-! ### The state of a session after n sequential successful turns -/

theorem fullTranscript_succ (u a : Nat → String) (n : Nat) :
    fullTranscript u a (n + 1) =
      fullTranscript u a n ++
        [Message.mk "user" (u (n + 1)), Message.mk "assistant" (a (n + 1))] := by
  unfold fullTranscript
  rw [List.range_succ, List.flatMap_append]
  simp

theorem fullTranscript_length (u a : Nat → String) (n : Nat) :
    (fullTranscript u a n).length = 2 * n := by
  induction n with
  | zero => rfl
  | succ n ih =>
    rw [fullTranscript_succ]
    simp only [List.length_append, List.length_cons, List.length_nil, ih]
    omega

theorem fullTranscript_front (u a : Nat → String) (n : Nat) (h : 1 ≤ n) :
    ∃ rest, fullTranscript u a n =
      Message.mk "user" (u 1) :: Message.mk "assistant" (a 1) :: rest := by
  induction n with
  | zero => omega
  | succ n ih =>
    by_cases hn : 1 ≤ n
    · obtain ⟨rest, hr⟩ := ih hn
      exact ⟨rest ++ [Message.mk "user" (u (n + 1)), Message.mk "assistant" (a (n + 1))],
        by rw [fullTranscript_succ, hr]; simp⟩
    · have hn0 : n = 0 := by omega
      subst hn0
      refine ⟨[], ?_⟩
      have := fullTranscript_succ u a 0
      simpa [fullTranscript] using this

theorem runTurns_lookup (id : String) (u a : Nat → String)
    (hid : id ≠ "") (hu : ∀ k, u k ≠ "") (n : Nat) (h : 1 ≤ n) :
    storeGet (runTurns id u a n []) id =
      some { messages := (fullTranscript u a n).drop (2 * n - 21)
             systemPrompt := "You are a helpful, friendly AI assistant."
             model := (MODELS.lookup DEFAULT_MODEL).getD ""
             createdAt := "t"
             updatedAt := some "t" } := by
  induction n with
  | zero => omega
  | succ n ih =>
    have hstep : runTurns id u a (n + 1) [] =
        (postConversation (some (u (n + 1))) (some id) none none
          (fun _ _ => some (a (n + 1))) "fresh" "t" (runTurns id u a n [])).store := rfl
    by_cases hn : 1 ≤ n
    · have hprev := ih hn
      rw [hstep, postConversation_existing _ _ _ _ _ _ _ _ _ (hu (n + 1)) hid hprev]
      unfold turnCore
      simp only [strTruthy, Bool.false_eq_true, if_false]
      rw [storeGet_storeSet_self]
      have key : truncate20 ((fullTranscript u a n).drop (2 * n - 21) ++
            [Message.mk "user" (u (n + 1))]) ++ [Message.mk "assistant" (a (n + 1))] =
          (fullTranscript u a (n + 1)).drop (2 * (n + 1) - 21) := by
        have hstep2 := truncate20_drop_step (fullTranscript u a n)
          (Message.mk "user" (u (n + 1))) (Message.mk "assistant" (a (n + 1)))
        rw [fullTranscript_length] at hstep2
        rw [fullTranscript_succ, hstep2]
        congr 1
      rw [key]
    · have hn0 : n = 0 := by omega
      subst hn0
      rw [hstep]
      have hcreate := getConversation_create id "fresh" "t" (runTurns id u a 0 []) hid rfl
      rw [postConversation_eq _ _ _ _ _ _ _ _ (hu 1), hcreate]
      unfold turnCore
      simp only [strTruthy, Bool.false_eq_true, if_false]
      rw [storeGet_storeSet_self]
      have hfull : fullTranscript u a 1 =
          [Message.mk "user" (u 1), Message.mk "assistant" (a 1)] := by
        have := fullTranscript_succ u a 0
        simpa [fullTranscript] using this
      simp [newConvo, truncate20, hfull]

/-! ### Claim theorems -/

/-- A session holding exactly 20 messages, used as a concrete boundary case. -/
def c20 : Convo :=
  { messages := List.replicate 20 (Message.mk "user" "x")
    systemPrompt := "p"
    model := "m"
    createdAt := "t0"
    updatedAt := none }

/-- Counterexample to C1: after 11 sequential successful turns on one session
the stored transcript length is 21, not min(2*11, 20) = 20, because the
handler truncates before appending the assistant reply. -/
theorem c1_counterexample :
    (storeGet (runTurns "sess" (fun _ => "hello") (fun _ => "yo") 11 []) "sess").map
        (fun c => c.messages.length) ≠ some (min (2 * 11) 20) := by
  decide

/-- Claim C1, amended: after N sequential successful turns on one session the
stored transcript length is min(2*N, 21) — 2*N up to 10 turns, then 21,
since truncation to 20 runs before the assistant reply is appended. In
particular after 11 turns the length is 21 and messages[0] is what was
originally the 2nd stored message (only the oldest 1 was dropped), namely
the assistant reply of turn 1. -/
theorem c1_transcript_length (id : String) (u a : Nat → String)
    (hid : id ≠ "") (hu : ∀ k, u k ≠ "") (n : Nat) (h : 1 ≤ n) :
    (storeGet (runTurns id u a n []) id).map (fun c => c.messages.length) =
      some (min (2 * n) 21) ∧
    (storeGet (runTurns id u a 11 []) id).map (fun c => c.messages.head?) =
      some (some (Message.mk "assistant" (a 1))) := by
  constructor
  · rw [runTurns_lookup id u a hid hu n h]
    simp [List.length_drop, fullTranscript_length]
    omega
  · obtain ⟨rest, hr⟩ := fullTranscript_front u a 11 (by omega)
    have h1 : 2 * 11 - 21 = 1 := by norm_num
    rw [runTurns_lookup id u a hid hu 11 (by omega), hr, h1]
    rfl

/-- Witness for the amended C1 at 11 concrete turns. -/
theorem c1_witness :
    ("sess" : String) ≠ "" ∧ (1 : Nat) ≤ 11 ∧
    ((storeGet (runTurns "sess" (fun _ => "hello") (fun _ => "yo") 11 []) "sess").map
        (fun c => c.messages.length) = some (min (2 * 11) 21) ∧
      (storeGet (runTurns "sess" (fun _ => "hello") (fun _ => "yo") 11 []) "sess").map
        (fun c => c.messages.head?) = some (some (Message.mk "assistant" "yo"))) :=
  ⟨by decide, by decide,
    c1_transcript_length "sess" (fun _ => "hello") (fun _ => "yo") (by decide)
      (fun _ => by simp) 11 (by decide)⟩

/-- Counterexample to C2: truncation is not performed after appending the
assistant reply. Starting from a session holding 20 messages, the state a
successful turn persists differs from what truncate-after-reply semantics
would persist (the handler keeps 21 entries, truncating only before the
gateway call). -/
theorem c2_counterexample :
    (storeGet (postConversation (some "hi") (some "sess") none none
        (fun _ _ => some "yo") "f" "t" [("sess", c20)]).store "sess").map
        (fun c => c.messages) ≠
      some (truncate20 (c20.messages ++ [Message.mk "user" "hi"] ++
        [Message.mk "assistant" "yo"])) := by
  decide

/-- Claim C2, amended: in every successful turn, truncation of the transcript
to the last 20 entries runs after the outbound message list has been
assembled but before the gateway call and before the assistant reply is
appended: the gateway still always sees the full pre-truncation context of
the current turn, and what persists is the truncated transcript with the
assistant reply appended after it. -/
theorem c2_truncation_order (msg id reply f now : String) (s : Store) (c : Convo)
    (hmsg : msg ≠ "") (hid : id ≠ "") (hc : storeGet s id = some c) :
    (postConversation (some msg) (some id) none none (fun _ _ => some reply) f now s).call =
      some (c.model,
        Message.mk "system" c.systemPrompt :: (c.messages ++ [Message.mk "user" msg])) ∧
    storeGet (postConversation (some msg) (some id) none none (fun _ _ => some reply)
        f now s).store id =
      some { c with
        messages := truncate20 (c.messages ++ [Message.mk "user" msg]) ++
          [Message.mk "assistant" reply]
        updatedAt := some now } := by
  rw [postConversation_existing _ _ _ _ _ _ _ _ _ hmsg hid hc]
  refine ⟨?_, ?_⟩
  · unfold turnCore
    simp [strTruthy]
  · unfold turnCore
    simp only [strTruthy, Bool.false_eq_true, if_false]
    exact storeGet_storeSet_self ..

/-- Witness for the amended C2 at the 20-message boundary session. -/
theorem c2_witness :
    ("hi" : String) ≠ "" ∧ ("sess" : String) ≠ "" ∧
    storeGet [("sess", c20)] "sess" = some c20 ∧
    ((postConversation (some "hi") (some "sess") none none (fun _ _ => some "yo")
        "f" "t" [("sess", c20)]).call =
      some (c20.model,
        Message.mk "system" c20.systemPrompt :: (c20.messages ++ [Message.mk "user" "hi"])) ∧
    storeGet (postConversation (some "hi") (some "sess") none none (fun _ _ => some "yo")
        "f" "t" [("sess", c20)]).store "sess" =
      some { c20 with
        messages := truncate20 (c20.messages ++ [Message.mk "user" "hi"]) ++
          [Message.mk "assistant" "yo"]
        updatedAt := some "t" }) :=
  ⟨by decide, by decide, by decide,
    c2_truncation_order "hi" "sess" "yo" "f" "t" [("sess", c20)] c20
      (by decide) (by decide) (by decide)⟩

/-- Counterexample to C3: on a gateway failure a mutation beyond the step-4
user-message append is committed. Starting from a session holding 20
messages, the failed turn persists a transcript that is not the old
transcript plus the user message: the oldest entry has been dropped by the
truncation that runs before the gateway call. -/
theorem c3_counterexample :
    (storeGet (postConversation (some "hi") (some "sess") none none
        (fun _ _ => none) "f" "t" [("sess", c20)]).store "sess").map
        (fun c => c.messages) ≠
      some (c20.messages ++ [Message.mk "user" "hi"]) := by
  decide

/-- Claim C3, amended: if the gateway call fails, the turn surfaces a generic
failure, the user message appended in step 4 remains as the last entry of
the stored transcript, no assistant message is appended, and the system
prompt, model and timestamps are untouched — but the truncation to 20
entries, which runs before the gateway call, is also committed, so the
oldest entries may additionally have been dropped. -/
theorem c3_failure_keeps_user_message (msg id f now : String) (s : Store) (c : Convo)
    (hmsg : msg ≠ "") (hid : id ≠ "") (hc : storeGet s id = some c) :
    (postConversation (some msg) (some id) none none (fun _ _ => none) f now s).resp =
      TurnResp.failure ∧
    storeGet (postConversation (some msg) (some id) none none (fun _ _ => none)
        f now s).store id =
      some { c with messages := truncate20 (c.messages ++ [Message.mk "user" msg]) } ∧
    truncate20 (c.messages ++ [Message.mk "user" msg]) =
      c.messages.drop (c.messages.length + 1 - 20) ++ [Message.mk "user" msg] := by
  rw [postConversation_existing _ _ _ _ _ _ _ _ _ hmsg hid hc]
  refine ⟨?_, ?_, truncate20_append_last ..⟩
  · unfold turnCore
    simp [strTruthy]
  · unfold turnCore
    simp only [strTruthy, Bool.false_eq_true, if_false]
    exact storeGet_storeSet_self ..

/-- Witness for the amended C3 at the 20-message boundary session. -/
theorem c3_witness :
    ("hi" : String) ≠ "" ∧ ("sess" : String) ≠ "" ∧
    storeGet [("sess", c20)] "sess" = some c20 ∧
    ((postConversation (some "hi") (some "sess") none none (fun _ _ => none)
        "f" "t" [("sess", c20)]).resp = TurnResp.failure ∧
    storeGet (postConversation (some "hi") (some "sess") none none (fun _ _ => none)
        "f" "t" [("sess", c20)]).store "sess" =
      some { c20 with messages := truncate20 (c20.messages ++ [Message.mk "user" "hi"]) } ∧
    truncate20 (c20.messages ++ [Message.mk "user" "hi"]) =
      c20.messages.drop (c20.messages.length + 1 - 20) ++ [Message.mk "user" "hi"]) :=
  ⟨by decide, by decide, by decide,
    c3_failure_keeps_user_message "hi" "sess" "f" "t" [("sess", c20)] c20
      (by decide) (by decide) (by decide)⟩

/-- Claim C4: in every turn, the outbound message list handed to the gateway
is exactly one system message carrying the session's current (post-override)
system prompt followed by the full pre-truncation transcript, including the
user message just appended; the model handed over is the session's current
(post-override) bound model. -/
theorem c4_outbound_full_context (msg f now : String) (cid mo sp : Option String)
    (g : String → List Message → Option String) (s : Store) (hmsg : msg ≠ "") :
    (postConversation (some msg) cid mo sp g f now s).call =
      some ((if strTruthy mo then resolveModel mo
              else (getConversation cid f now s).1.2.model),
        Message.mk "system"
            (if strTruthy sp then sp.getD ""
              else (getConversation cid f now s).1.2.systemPrompt) ::
          ((getConversation cid f now s).1.2.messages ++ [Message.mk "user" msg])) := by
  rw [postConversation_eq _ _ _ _ _ _ _ _ hmsg]
  unfold turnCore
  by_cases hmo : strTruthy mo = true <;> by_cases hsp : strTruthy sp = true <;>
    simp only [hmo, hsp, Bool.false_eq_true, if_true, if_false] <;>
    split <;> rfl

/-- Witness for C4 at a session already holding 20 messages: the gateway sees
all 21 pre-truncation entries. -/
theorem c4_witness :
    ("hi" : String) ≠ "" ∧
    (postConversation (some "hi") (some "sess") none none (fun _ _ => some "yo")
        "f" "t" [("sess", c20)]).call =
      some ((if strTruthy none then resolveModel none
              else (getConversation (some "sess") "f" "t" [("sess", c20)]).1.2.model),
        Message.mk "system"
            (if strTruthy none then (none : Option String).getD ""
              else (getConversation (some "sess") "f" "t" [("sess", c20)]).1.2.systemPrompt) ::
          ((getConversation (some "sess") "f" "t" [("sess", c20)]).1.2.messages ++
            [Message.mk "user" "hi"])) :=
  ⟨by decide,
    c4_outbound_full_context "hi" "f" "t" (some "sess") none none
      (fun _ _ => some "yo") [("sess", c20)] (by decide)⟩

/-- Claim C5: resolveModel is a pure total function: absent or empty input
resolves to the id bound to the default alias (and equals resolving the
default alias itself), every registered alias resolves to its
fully-qualified id, and any other input is returned unchanged with no
validation and no error. -/
theorem c5_resolveModel_total :
    resolveModel none = (MODELS.lookup DEFAULT_MODEL).getD "" ∧
    resolveModel none = resolveModel (some DEFAULT_MODEL) ∧
    resolveModel (some "") = resolveModel none ∧
    (∀ al full, MODELS.lookup al = some full → resolveModel (some al) = full) ∧
    (∀ m, m ≠ "" → MODELS.lookup m = none → resolveModel (some m) = m) := by
  refine ⟨rfl, by decide, rfl, ?_, ?_⟩
  · intro al full hl
    have ha : al ≠ "" := by
      intro he
      subst he
      rw [show List.lookup "" MODELS = none from by decide] at hl
      cases hl
    unfold resolveModel
    rw [strTruthy_some ha]
    simp [hl]
  · intro m hm hl
    unfold resolveModel
    rw [strTruthy_some hm]
    simp [hl]

/-- Witness for C5 on a registered alias and on an unregistered id. -/
theorem c5_witness :
    resolveModel (some "mistral") = "mistralai/Mistral-7B-Instruct-v0.3" ∧
    resolveModel (some "org/custom-model") = "org/custom-model" :=
  ⟨c5_resolveModel_total.2.2.2.1 "mistral" "mistralai/Mistral-7B-Instruct-v0.3" (by decide),
    c5_resolveModel_total.2.2.2.2 "org/custom-model" (by decide) (by decide)⟩

/-- Claim C7: whenever the transcript exceeds 20 entries, the truncation
keeps exactly the most recent 20: the result is the transcript with its
oldest entries dropped, has length 20, and is a suffix of the original, so
the relative order among survivors is preserved. -/
theorem c7_truncate_most_recent (l : List Message) (h : l.length > 20) :
    truncate20 l = l.drop (l.length - 20) ∧
    (truncate20 l).length = 20 ∧
    truncate20 l <:+ l := by
  refine ⟨?_, ?_, truncate20_suffix l⟩
  · unfold truncate20
    rw [if_pos h]
  · rw [truncate20_length]
    omega

/-- Witness for C7 on a 21-entry transcript. -/
theorem c7_witness :
    (List.replicate 21 (Message.mk "user" "x")).length > 20 ∧
    (truncate20 (List.replicate 21 (Message.mk "user" "x")) =
        (List.replicate 21 (Message.mk "user" "x")).drop
          ((List.replicate 21 (Message.mk "user" "x")).length - 20) ∧
      (truncate20 (List.replicate 21 (Message.mk "user" "x"))).length = 20 ∧
      truncate20 (List.replicate 21 (Message.mk "user" "x")) <:+
        List.replicate 21 (Message.mk "user" "x")) :=
  ⟨by decide, c7_truncate_most_recent _ (by decide)⟩

/-- Claim C8: looking up an existing session id mutates nothing: the store
is returned unchanged, and calling getConversation twice with the same
existing id and no intervening mutation yields the identical session record
(same messages, systemPrompt, model) both times, regardless of the fresh id
and timestamp on offer. -/
theorem c8_lookup_no_mutation (id f1 n1 f2 n2 : String) (s : Store) (c : Convo)
    (hid : id ≠ "") (hc : storeGet s id = some c) :
    getConversation (some id) f1 n1 s = ((id, c), s) ∧
    getConversation (some id) f2 n2 (getConversation (some id) f1 n1 s).2 = ((id, c), s) := by
  have h1 := getConversation_existing id f1 n1 s c hid hc
  exact ⟨h1, by rw [h1]; exact getConversation_existing id f2 n2 s c hid hc⟩

/-- Witness for C8 on a one-session store. -/
theorem c8_witness :
    ("sess" : String) ≠ "" ∧
    storeGet [("sess", newConvo "t0")] "sess" = some (newConvo "t0") ∧
    (getConversation (some "sess") "f1" "n1" [("sess", newConvo "t0")] =
        (("sess", newConvo "t0"), [("sess", newConvo "t0")]) ∧
      getConversation (some "sess") "f2" "n2"
          (getConversation (some "sess") "f1" "n1" [("sess", newConvo "t0")]).2 =
        (("sess", newConvo "t0"), [("sess", newConvo "t0")])) :=
  ⟨by decide, by decide,
    c8_lookup_no_mutation "sess" "f1" "n1" "f2" "n2" [("sess", newConvo "t0")]
      (newConvo "t0") (by decide) (by decide)⟩

/-- Claim C9: after a delete of an id, a get of the same id reports
not-found (whether or not the delete found a live session), and deleting an
id with no live session itself reports not-found. -/
theorem c9_delete_then_get (id : String) (s : Store) :
    getConversationById id (deleteConversation id s).2 = GetResp.notFound ∧
    (storeGet s id = none → (deleteConversation id s).1 = DelResp.notFound) := by
  unfold deleteConversation
  cases hx : storeHas s id with
  | true =>
    refine ⟨?_, ?_⟩
    · simp only [hx, Bool.not_true, Bool.false_eq_true, if_false]
      unfold getConversationById
      rw [storeGet_storeDel_self]
    · intro h
      unfold storeHas at hx
      unfold storeGet at h
      rw [h] at hx
      cases hx
  | false =>
    have hnone : storeGet s id = none := by
      unfold storeHas at hx
      unfold storeGet
      cases hy : s.lookup id
      · rfl
      · rw [hy] at hx
        cases hx
    refine ⟨?_, ?_⟩
    · simp only [hx, Bool.not_false, if_true]
      unfold getConversationById
      rw [hnone]
    · intro h
      simp [hx]

/-- Witness for C9 on the empty store. -/
theorem c9_witness :
    storeGet ([] : Store) "x" = none ∧
    getConversationById "x" (deleteConversation "x" ([] : Store)).2 = GetResp.notFound ∧
    (deleteConversation "x" ([] : Store)).1 = DelResp.notFound :=
  ⟨rfl, (c9_delete_then_get "x" []).1, (c9_delete_then_get "x" []).2 rfl⟩

/-- Claim C10: an empty-string systemPrompt or model override supplied to a
turn is ignored, because the provided-check is a JS truthiness test: the
session's systemPrompt and model are left unchanged whether the gateway
call succeeds or fails. -/
theorem c10_empty_overrides_ignored (msg id f now : String)
    (g : String → List Message → Option String) (s : Store) (c : Convo)
    (hmsg : msg ≠ "") (hid : id ≠ "") (hc : storeGet s id = some c) :
    (storeGet (postConversation (some msg) (some id) (some "") (some "") g f now s).store
        id).map Convo.systemPrompt = some c.systemPrompt ∧
    (storeGet (postConversation (some msg) (some id) (some "") (some "") g f now s).store
        id).map Convo.model = some c.model := by
  rw [postConversation_existing _ _ _ _ _ _ _ _ _ hmsg hid hc]
  unfold turnCore
  simp only [strTruthy, bne_self_eq_false, Bool.false_eq_true, if_false]
  split <;>
    exact ⟨by rw [storeGet_storeSet_self]; rfl, by rw [storeGet_storeSet_self]; rfl⟩

/-- Witness for C10: an empty-string override on a live session leaves its
prompt and model as they were. -/
theorem c10_witness :
    ("hi" : String) ≠ "" ∧ ("sess" : String) ≠ "" ∧
    storeGet [("sess", c20)] "sess" = some c20 ∧
    ((storeGet (postConversation (some "hi") (some "sess") (some "") (some "")
        (fun _ _ => some "yo") "f" "t" [("sess", c20)]).store "sess").map
        Convo.systemPrompt = some c20.systemPrompt ∧
    (storeGet (postConversation (some "hi") (some "sess") (some "") (some "")
        (fun _ _ => some "yo") "f" "t" [("sess", c20)]).store "sess").map
        Convo.model = some c20.model) :=
  ⟨by decide, by decide, by decide,
    c10_empty_overrides_ignored "hi" "sess" "f" "t" (fun _ _ => some "yo")
      [("sess", c20)] c20 (by decide) (by decide) (by decide)⟩

/-! ### The stored-model invariant (C6) -/

/-- Every model bound in the store is outside the alias registry: looking it
up among the registered shorthands finds nothing. -/
def modelNotAlias (s : Store) : Prop :=
  ∀ p ∈ s, MODELS.lookup p.2.model = none

theorem lookup_mem {β : Type} {l : List (String × β)} {k : String} {v : β}
    (h : l.lookup k = some v) : (k, v) ∈ l := by
  induction l with
  | nil => cases h
  | cons p t ih =>
    obtain ⟨k', v'⟩ := p
    by_cases hk : k = k'
    · subst hk
      simp [List.lookup] at h
      simp [h]
    · have hb : (k == k') = false := beq_eq_false_iff_ne.mpr hk
      simp only [List.lookup, hb] at h
      simp [ih h]

theorem resolveModel_not_alias (mo : Option String) :
    MODELS.lookup (resolveModel mo) = none := by
  cases mo with
  | none => decide
  | some m =>
    by_cases hm : m = ""
    · subst hm
      decide
    · unfold resolveModel
      rw [strTruthy_some hm]
      simp only [Bool.not_true, Bool.false_eq_true, if_false, Option.getD_some]
      cases hl : MODELS.lookup m with
      | none => simpa using hl
      | some full =>
        have hall : ∀ q ∈ MODELS, List.lookup q.2 MODELS = none := by decide
        exact hall _ (lookup_mem hl)

theorem newConvo_model_not_alias (now : String) :
    MODELS.lookup (newConvo now).model = none := by
  have h : (newConvo now).model = (MODELS.lookup DEFAULT_MODEL).getD "" := rfl
  rw [h]
  decide

theorem mem_storeSet {s : Store} {id : String} {c : Convo} {p : String × Convo}
    (h : p ∈ storeSet s id c) : p ∈ s ∨ p = (id, c) := by
  unfold storeSet at h
  split at h
  · obtain ⟨q, hq, hfq⟩ := List.mem_map.mp h
    by_cases hqid : q.1 = id
    · right
      rw [if_pos hqid] at hfq
      exact hfq.symm
    · left
      rw [if_neg hqid] at hfq
      rw [← hfq]
      exact hq
  · rcases List.mem_append.mp h with h | h
    · left
      exact h
    · right
      simpa using h

theorem modelNotAlias_storeSet {s : Store} {id : String} {c : Convo}
    (hs : modelNotAlias s) (hc : MODELS.lookup c.model = none) :
    modelNotAlias (storeSet s id c) := by
  intro p hp
  rcases mem_storeSet hp with h | h
  · exact hs p h
  · rw [h]
    exact hc

theorem modelNotAlias_getConversation (cid : Option String) (f now : String) (s : Store)
    (hs : modelNotAlias s) : modelNotAlias (getConversation cid f now s).2 := by
  unfold getConversation
  cases hx : (if strTruthy cid then storeGet s (cid.getD "") else none) with
  | some c => exact hs
  | none => exact modelNotAlias_storeSet hs (newConvo_model_not_alias now)

theorem modelNotAlias_turnCore (msg id : String) (c : Convo) (s1 : Store)
    (mo sp : Option String) (g : String → List Message → Option String) (now : String)
    (hs1 : modelNotAlias s1) (hcm : MODELS.lookup c.model = none) :
    modelNotAlias (turnCore msg id c s1 mo sp g now).store := by
  unfold turnCore
  by_cases hsp : strTruthy sp = true <;> by_cases hmo : strTruthy mo = true <;>
    simp only [hsp, hmo, Bool.false_eq_true, if_true, if_false] <;>
    split <;>
    refine modelNotAlias_storeSet hs1 ?_ <;>
    first
      | exact resolveModel_not_alias mo
      | exact hcm

instance (s : Store) : Decidable (modelNotAlias s) := by
  unfold modelNotAlias
  infer_instance

/-- Claim C6: every stored session's bound model field is never a shorthand
alias of the registry — alias resolution happens before storage, at session
creation and when a model override is applied — and this invariant is
preserved by every session-store operation: getConversation, a full
POST /conversation turn (with arbitrary overrides and gateway outcome), and
deletion; the empty store satisfies it vacuously. -/
theorem c6_model_never_alias (s : Store) (hs : modelNotAlias s)
    (message cid mo sp : Option String) (g : String → List Message → Option String)
    (f now delId : String) :
    modelNotAlias ([] : Store) ∧
    modelNotAlias (getConversation cid f now s).2 ∧
    modelNotAlias (postConversation message cid mo sp g f now s).store ∧
    modelNotAlias (deleteConversation delId s).2 := by
  refine ⟨(by intro p hp; cases hp), modelNotAlias_getConversation cid f now s hs, ?_, ?_⟩
  · cases message with
    | none => exact hs
    | some m =>
      by_cases hm : m = ""
      · subst hm
        exact hs
      · rw [postConversation_eq _ _ _ _ _ _ _ _ hm]
        refine modelNotAlias_turnCore _ _ _ _ _ _ _ _
          (modelNotAlias_getConversation cid f now s hs) ?_
        have hl := getConversation_lookup cid f now s
        exact modelNotAlias_getConversation cid f now s hs _ (lookup_mem hl)
  · intro p hp
    unfold deleteConversation at hp
    split at hp
    · exact hs p hp
    · exact hs p (List.mem_of_mem_filter hp)

/-- Witness for C6: the invariant holds across a turn that applies an alias
override to a live session. -/
theorem c6_witness :
    modelNotAlias [("sess", c20)] ∧
    modelNotAlias (postConversation (some "hi") (some "sess") (some "qwen")
      (some "be brief") (fun _ _ => some "r") "f" "t" [("sess", c20)]).store :=
  ⟨by decide,
    (c6_model_never_alias [("sess", c20)] (by decide) (some "hi") (some "sess")
      (some "qwen") (some "be brief") (fun _ _ => some "r") "f" "t" "d").2.2.1⟩

end ChatServer
